import Mathlib

/-!
Verification development for the logapi repository (Go).

The definitions below are shallow embeddings of the archival storage engine:
the tar indexer and streaming reader (src/tarfs/tarfs.go), the rotation
procedure (src/tarfs/compressor.go), and the server overlay, upload, cache
and scheduler sweep (the logapi package server file).  Byte payloads are
lists of naturals, Go maps are association lists with overwrite-on-insert,
and the filesystem is explicit state.  Fallible operations return Except or
an explicit outcome type.
-/

deriving instance DecidableEq for Except

namespace Logapi

/-- Byte payloads are modelled as lists of naturals. -/
abbrev Bytes := List Nat

/-- Entry of a tar stream: member name, whether the entry is a regular file
(tar.TypeReg), and its payload bytes.  Containers are modelled well formed,
so the declared header size of an entry equals the length of its payload. -/
structure TarEntry where
  name : String
  isReg : Bool
  data : Bytes
deriving DecidableEq

/-- Go map insertion (m[k] = v): overwrite the binding of k when present,
otherwise append a fresh binding. -/
def alInsert : List (String × Nat) → String → Nat → List (String × Nat)
  | [], k, v => [(k, v)]
  | (k0, v0) :: rest, k, v =>
      if k0 = k then (k, v) :: rest else (k0, v0) :: alInsert rest k v

/-- Go map lookup (v, ok := m[k]). -/
def alLookup : List (String × Nat) → String → Option Nat
  | [], _ => none
  | (k0, v0) :: rest, k => if k0 = k then some v0 else alLookup rest k

/-- In-memory index of a container, as built by NewTarFS in
src/tarfs/tarfs.go: member name to ordinal among all entries (indices,
last occurrence wins) and member name to declared size (sizes). -/
structure TarIndex where
  indices : List (String × Nat)
  sizes : List (String × Nat)
deriving DecidableEq

/-- Indexing loop of NewTarFS: walk the entries with a counter i over all
entries (regular or not); for each regular-file entry record
indices[name] = i and sizes[name] = declared size, overwriting earlier
bindings; payload bytes are skipped, not materialized. -/
def buildIndex : List TarEntry → Nat → TarIndex → TarIndex
  | [], _, fs => fs
  | e :: rest, i, fs =>
      buildIndex rest (i + 1)
        (if e.isReg then
          { indices := alInsert fs.indices e.name i,
            sizes := alInsert fs.sizes e.name e.data.length }
         else fs)

/-- NewTarFS over an already decoded container: scan all entries from the
start, building the (ordinal, size) index. -/
def newTarFS (entries : List TarEntry) : TarIndex :=
  buildIndex entries 0 ⟨[], []⟩

/-- TarFS.Get: look the requested path up in the indices map; re-open and
re-decode the container from the start, calling Next exactly ordinal+1
times; if the stream ends early the fetch fails; if the entry name at the
recorded ordinal differs from the requested path the fetch fails with an
integrity error; otherwise the remaining payload of that entry is
returned.  The second argument is the entry list of the container as it
is on disk at fetch time (TarFS.Get re-reads the file at fs.path). -/
def tarGet (fs : TarIndex) (entries : List TarEntry) (path : String) : Except String Bytes :=
  match alLookup fs.indices path with
  | none => .error "file not found"
  | some i =>
      match entries.get? i with
      | none => .error "stream ended before the recorded ordinal"
      | some e => if e.name = path then .ok e.data else .error "expected file name mismatch"

/-- EntryPaths: the keys of the indices map. -/
def entryPaths (fs : TarIndex) : List String :=
  fs.indices.map (fun p => p.1)

/-- Helper characterizing the Go map contents after the indexing loop: the
ordinal of the last regular-file occurrence of a name among the entries,
if any. -/
def lastIdx : List TarEntry → String → Option Nat
  | [], _ => none
  | e :: rest, s =>
      match lastIdx rest s with
      | some j => some (j + 1)
      | none => if e.isReg ∧ e.name = s then some 0 else none

/-! Rotation (src/tarfs/compressor.go). -/

/-- Written tar container on disk: the regular-file entries written so far
(header name, payload) and whether the writer stack (tar writer, then
compressor, then file) was closed without error, i.e. the container is
fully finalized. -/
structure TarFile where
  entries : List (String × Bytes)
  finalized : Bool
deriving DecidableEq

/-- Filesystem state the rotation of one (rootDir, month) sees:
the container file rootDir/month.tar.format if it exists, and the regular
files below rootDir/month in walk order (paths relative to rootDir, so
each is prefixed by the month segment), none when the directory is
missing. -/
structure RotFS where
  tar : Option TarFile
  src : Option (List (String × Bytes))
deriving DecidableEq

/-- Observable outcome of a rotation call: a normal return, an error
value, an explicit panic (the bzip2 branch of CompressDir), or a nil
pointer dereference (a format outside the switch leaves the tar writer
nil and the deferred Close or the first WriteHeader dereferences it). -/
inductive RotOutcome
  | ok
  | err
  | panicked
  | nilDeref
deriving DecidableEq

/-- Fault injection for one CompressDir call: whether os.Create of the
container succeeds; whether the walk/write loop fails, and after writing
how many files; whether the deferred Close of the tar writer, the
compressor and the file succeed (their errors are discarded by the code). -/
structure RotFaults where
  createOk : Bool
  failAfter : Option Nat
  twCloseOk : Bool
  compCloseOk : Bool
  fCloseOk : Bool
deriving DecidableEq

/-- CompressDir: if rootDir/month.tar.format already exists, return nil
without touching anything; create the container file; pick the compressor
by format — bzip2 panics explicitly, a format outside gz/bz2/zst/xz leaves
the tar writer nil and panics on first use; walk rootDir/month writing a
header (name relative to rootDir) and the bytes of every regular file; on
a walk or write error return the error; on success return nil, after which
the deferred Close calls run with their errors ignored, so the container
is marked finalized only when all three succeed but the outcome is ok
regardless. -/
def compressDir (fs : RotFS) (format : String) (fl : RotFaults) : RotFS × RotOutcome :=
  if fs.tar.isSome then (fs, .ok)
  else if fl.createOk = false then (fs, .err)
  else if format = "bz2" then ({ fs with tar := some ⟨[], false⟩ }, .panicked)
  else if format = "gz" ∨ format = "zst" ∨ format = "xz" then
    match fs.src with
    | none => ({ fs with tar := some ⟨[], false⟩ }, .err)
    | some files =>
        match fl.failAfter with
        | some k =>
            if k < files.length then
              ({ fs with tar := some ⟨files.take k, false⟩ }, .err)
            else
              ({ fs with tar := some ⟨files, fl.twCloseOk && fl.compCloseOk && fl.fCloseOk⟩ }, .ok)
        | none =>
            ({ fs with tar := some ⟨files, fl.twCloseOk && fl.compCloseOk && fl.fCloseOk⟩ }, .ok)
  else ({ fs with tar := some ⟨[], false⟩ }, .nilDeref)

/-- CompressAndRemove: run CompressDir; on an error return it without
deleting anything (a panic likewise propagates); on a nil error delete the
source directory rootDir/month recursively. -/
def compressAndRemove (fs : RotFS) (format : String) (fl : RotFaults) : RotFS × RotOutcome :=
  match compressDir fs format fl with
  | (fs1, RotOutcome.ok) => ({ fs1 with src := none }, .ok)
  | (fs1, out) => (fs1, out)

/-- Format check in the server constructor New: any compression format
other than zst, gz and xz is rejected with a configuration error. -/
def serverAcceptsFormat (compress : String) : Bool :=
  if compress ≠ "zst" ∧ compress ≠ "gz" ∧ compress ≠ "xz" then false else true

/-! Scheduler sweep (Server.CompressAll). -/

/-- Decimal digit test for one character. -/
def isDigit (c : Char) : Bool :=
  decide ('0' ≤ c) && decide (c ≤ '9')

/-- Success of Go time.Parse with layout 2006-01: four year digits, a
dash, and a two-digit month between 01 and 12. -/
def isYYYYMM (s : String) : Bool :=
  match s.toList with
  | [y1, y2, y3, y4, dash, m1, m2] =>
      isDigit y1 && isDigit y2 && isDigit y3 && isDigit y4 && (dash == '-') &&
      isDigit m1 && isDigit m2 &&
      decide (1 ≤ (m1.toNat - 48) * 10 + (m2.toNat - 48)) &&
      decide ((m1.toNat - 48) * 10 + (m2.toNat - 48) ≤ 12)
  | _ => false

/-- Go string comparison is byte-wise lexicographic; on the ASCII names
compared here that is character-wise lexicographic order. -/
def charListLt : List Char → List Char → Bool
  | [], [] => false
  | [], _ :: _ => true
  | _ :: _, [] => false
  | a :: as, b :: bs =>
      if a < b then true
      else if b < a then false
      else charListLt as bs

/-- Lexicographic strict order on strings, as Go compares dateName with
the threshold month name. -/
def strLt (a b : String) : Bool := charListLt a.toList b.toList

/-- One user directory under the storage root as the sweep reads it: its
name, whether the entry is a directory, and its own entries (name and
directory flag). -/
structure UserTree where
  name : String
  isDir : Bool
  dates : List (String × Bool)
deriving DecidableEq

/-- Inner loop of CompressAll over one user's date entries: skip non
directories, names that do not parse as YYYY-MM, and names not strictly
below the threshold month; otherwise call CompressAndRemove and on an
error return it immediately, aborting the iteration; on success record
the tarball path.  The first component lists the (user, date) pairs on
which a rotation was actually attempted. -/
def sweepDates (storage user : String) (dates : List (String × Bool)) (thenName compress : String)
    (rotFails : String → String → Bool) :
    List (String × String) × Except Unit (List String) :=
  match dates with
  | [] => ([], .ok [])
  | (d, dir) :: rest =>
      if dir = false then sweepDates storage user rest thenName compress rotFails
      else if isYYYYMM d = false then sweepDates storage user rest thenName compress rotFails
      else if strLt d thenName = false then sweepDates storage user rest thenName compress rotFails
      else if rotFails user d then ([(user, d)], .error ())
      else
        match sweepDates storage user rest thenName compress rotFails with
        | (att, Except.ok tbs) =>
            ((user, d) :: att, .ok ((storage ++ "/" ++ user ++ "/" ++ d ++ ".tar." ++ compress) :: tbs))
        | (att, Except.error e) => ((user, d) :: att, .error e)

/-- Outer loop of CompressAll over the user directories: skip non
directories; run the inner loop, and when it aborted with an error return
that error immediately, so users after the failing one are never
visited. -/
def sweepUsers (storage : String) (users : List UserTree) (thenName compress : String)
    (rotFails : String → String → Bool) :
    List (String × String) × Except Unit (List String) :=
  match users with
  | [] => ([], .ok [])
  | u :: rest =>
      if u.isDir = false then sweepUsers storage rest thenName compress rotFails
      else
        match sweepDates storage u.name u.dates thenName compress rotFails with
        | (att, Except.error e) => (att, .error e)
        | (att, Except.ok tbs) =>
            match sweepUsers storage rest thenName compress rotFails with
            | (att2, Except.ok tbs2) => (att ++ att2, .ok (tbs ++ tbs2))
            | (att2, Except.error e) => (att ++ att2, .error e)

/-- Server.CompressAll: thenName is (now - stale) formatted as YYYY-MM;
rotFails says whether CompressAndRemove fails for a given (user, date).
Returns the attempted (user, date) pairs alongside the result the code
returns: the tarball paths, or the first rotation error. -/
def compressAll (storage : String) (users : List UserTree) (thenName compress : String)
    (rotFails : String → String → Bool) :
    List (String × String) × Except Unit (List String) :=
  sweepUsers storage users thenName compress rotFails

/-! Server overlay: live storage, archives, the date-keyed cache. -/

/-- One live month directory: entry names with the bytes of each regular
file, in directory order. -/
abbrev Dir := List (String × Bytes)

/-- Lookup of a directory entry by name, as os.Open of dir/name. -/
def lookupEntry : Dir → String → Option Bytes
  | [], _ => none
  | (n, b) :: rest, s => if n = s then some b else lookupEntry rest s

/-- Create or overwrite a directory entry, keeping its position when the
name already exists. -/
def setEntry : Dir → String → Bytes → Dir
  | [], s, b => [(s, b)]
  | (n, c) :: rest, s, b => if n = s then (s, b) :: rest else (n, c) :: setEntry rest s b

/-- Remove a directory entry by name. -/
def removeEntry : Dir → String → Dir
  | [], _ => []
  | (n, c) :: rest, s => if n = s then rest else (n, c) :: removeEntry rest s

/-- On-disk state below the storage root: live directories
storage/owner/month (none when the directory does not exist) and archive
containers storage/owner/month.tar.compress (none when the file does not
exist), the latter already decoded into tar entries. -/
structure StorageFS where
  live : String → String → Option Dir
  archive : String → String → Option (List TarEntry)

/-- One entry of the server's tarFS map: the TarFS built by NewTarFS holds
the path it was opened from, so it remembers which owner's container it
indexes, together with the index itself. -/
structure CacheEntry where
  owner : String
  idx : TarIndex
deriving DecidableEq

/-- Server state: the filesystem and the tarFS map, which the code keys by
date alone (map[string]*tarfs.TarFS, date -> TarFS). -/
structure ServerSt where
  fs : StorageFS
  cache : String → Option CacheEntry

/-- Result of GetFile as observable by the client: the served bytes or a
not-found error. -/
inductive GetResult
  | ok (data : Bytes)
  | notFound
deriving DecidableEq

/-- Result of the live open os.Open(storage/user/date/name): bytes when
both the month directory and the file exist. -/
def liveOpen (fs : StorageFS) (user date name : String) : Option Bytes :=
  match fs.live user date with
  | some dir => lookupEntry dir name
  | none => none

/-- TarFS.Get as called by the server on a cache entry: Get re-opens the
path the TarFS was built from, which names the cache entry's owner, and
replays the container found there now; every error is reported to the
client as not-found. -/
def tarFetch (fs : StorageFS) (ce : CacheEntry) (date name : String) : GetResult :=
  match fs.archive ce.owner date with
  | none => .notFound
  | some entries =>
      match tarGet ce.idx entries (date ++ "/" ++ name) with
      | Except.ok b => .ok b
      | Except.error _ => .notFound

/-- Archive fallback of GetFile: read the tarFS map at the date; on a miss
build a TarFS from storage/user/date.tar.compress (not-found when that
file does not exist), store it in the map under the date, and fetch the
member date/name from it. -/
def getFileArchive (s : ServerSt) (user date name : String) : GetResult × ServerSt :=
  match s.cache date with
  | some ce => (tarFetch s.fs ce date name, s)
  | none =>
      match s.fs.archive user date with
      | none => (.notFound, s)
      | some entries =>
          let ce : CacheEntry := ⟨user, newTarFS entries⟩
          let s1 : ServerSt :=
            { s with cache := fun d => if d = date then some ce else s.cache d }
          (tarFetch s1.fs ce date name, s1)

/-- GetFile after authentication, the user check and the date-format
validation: open storage/user/date/name and serve its bytes when that
succeeds; otherwise fall back to the archive through the tarFS map. -/
def getFile (s : ServerSt) (user date name : String) : GetResult × ServerSt :=
  match liveOpen s.fs user date name with
  | some bytes => (.ok bytes, s)
  | none => getFileArchive s user date name

/-- Go strings.TrimPrefix: drop the prefix when present, otherwise return
the string unchanged. -/
def trimPrefixStr (s pre : String) : String :=
  if pre.isPrefixOf s then s.drop pre.length else s

/-- ListFiles after authentication and the user check: when the live month
directory reads successfully, list its entry names; otherwise resolve the
archive through the tarFS map (populating it like GetFile does) and list
the member paths with the date/ prefix stripped; not-found when neither
source exists. -/
def listFiles (s : ServerSt) (user date : String) : Except Unit (List String) × ServerSt :=
  match s.fs.live user date with
  | some dir => (.ok (dir.map (fun p => p.1)), s)
  | none =>
      match s.cache date with
      | some ce => (.ok ((entryPaths ce.idx).map (fun p => trimPrefixStr p (date ++ "/"))), s)
      | none =>
          match s.fs.archive user date with
          | none => (.error (), s)
          | some entries =>
              let ce : CacheEntry := ⟨user, newTarFS entries⟩
              let s1 : ServerSt :=
                { s with cache := fun d => if d = date then some ce else s.cache d }
              (.ok ((entryPaths ce.idx).map (fun p => trimPrefixStr p (date ++ "/"))), s1)

/-! Upload (Server.UploadLog, storage-write portion). -/

/-- Fault injection for one upload: whether os.MkdirAll, os.Create of the
temp file, the body copy and os.Rename succeed; written holds the bytes
that reached the temp file before a failing copy stopped. -/
structure UploadEnv where
  mkdirOk : Bool
  createOk : Bool
  copyOk : Bool
  written : Bytes
  renameOk : Bool

/-- Client-visible outcome of the storage-write portion of UploadLog. -/
inductive UploadResult
  | created
  | serverError
  | writeFailed
deriving DecidableEq

/-- Replace the live directory of (user, date). -/
def updLive (fs : StorageFS) (user date : String) (d : Dir) : StorageFS :=
  { fs with live := fun u m => if u = user ∧ m = date then some d else fs.live u m }

/-- Storage-write portion of UploadLog, after authentication and date
validation: MkdirAll(storage/user/date); create the temp file name.tmp in
that directory (truncating); copy the body into it — on a copy error the
partially written temp file is left in place and the handler returns; on
success rename the temp file onto storage/user/date/name in one atomic
step, replacing any previous file of that name. -/
def uploadWrite (fs : StorageFS) (user date name : String) (payload : Bytes)
    (env : UploadEnv) : UploadResult × StorageFS :=
  if env.mkdirOk = false then (.serverError, fs)
  else
    let d0 : Dir := (fs.live user date).getD []
    if env.createOk = false then (.serverError, updLive fs user date d0)
    else
      let tmp := name ++ ".tmp"
      if env.copyOk = false then
        (.writeFailed, updLive fs user date (setEntry d0 tmp env.written))
      else
        let d1 := setEntry d0 tmp payload
        if env.renameOk = false then (.serverError, updLive fs user date d1)
        else (.created, updLive fs user date (setEntry (removeEntry d1 tmp) name payload))

/-! Date-window validation of UploadLog.  Go's time package uses the
proleptic Gregorian calendar in UTC; instants are modelled as absolute
seconds, months by an index n standing for year n/12, month n%12+1 under
Euclidean division, so consecutive indices are consecutive calendar
months across year boundaries. -/

/-- Gregorian leap-year rule, as time.Date normalization applies it. -/
def isLeap (y : Int) : Bool :=
  decide (y % 4 = 0 ∧ (y % 100 ≠ 0 ∨ y % 400 = 0))

/-- Number of days of the month with index n (year ediv 12, month
emod 12 + 1). -/
def monthLen (n : Int) : Int :=
  if Int.emod n 12 + 1 = 2 then (if isLeap (Int.ediv n 12) then 29 else 28)
  else if Int.emod n 12 + 1 = 4 ∨ Int.emod n 12 + 1 = 6 ∨
          Int.emod n 12 + 1 = 9 ∨ Int.emod n 12 + 1 = 11 then 30
  else 31

/-- Day number of the first day of month index n, for nonnegative n,
counted from the first day of month index 0. -/
def monthStartNat : Nat → Int
  | 0 => 0
  | n + 1 => monthStartNat n + monthLen (Int.ofNat n)

/-- Day number of the first day of month index -k. -/
def monthStartNeg : Nat → Int
  | 0 => 0
  | k + 1 => monthStartNeg k - monthLen (-(Int.ofNat k + 1))

/-- Day number of the first day of the month with index n. -/
def monthStart : Int → Int
  | Int.ofNat n => monthStartNat n
  | Int.negSucc k => monthStartNeg (k + 1)

/-- Absolute UTC second of midnight on the first day of month index n:
what time.Parse with layout 2006-01 yields for the token naming that
month, and what time.Date(y, m, 1, 0, 0, 0, 0, UTC) yields. -/
def monthStartSec (n : Int) : Int :=
  86400 * monthStart n

/-- Absolute UTC second of the instant in month index m, on the 0-based
day d of that month, at second sec of that day. -/
def instant (m d sec : Int) : Int :=
  86400 * (monthStart m + d) + sec

/-- Date-range check of UploadLog on a parsed X-File-Date naming month
index tok, at an upload instant in month nowMonth, 0-based day nowDay,
second nowSec: dateTime is the first of the token month, firstOfLastMonth
is the first of the month before the current one, tomorrow is now plus one
day; the upload is rejected when dateTime is before firstOfLastMonth or
after tomorrow. -/
def dateOutOfRange (tok nowMonth nowDay nowSec : Int) : Bool :=
  decide (monthStartSec tok < monthStartSec (nowMonth - 1)) ||
  decide (monthStartSec tok > instant nowMonth nowDay nowSec + 86400)

/-! Concrete states used by the counterexample evaluations. -/

/-- Archive container of owner alice for month 2024-01. -/
def aliceArch : List TarEntry := [⟨"2024-01/a.log", true, [1, 2, 3]⟩]

/-- Archive container of owner bob for the same month, holding different
bytes under the same member name. -/
def bobArch : List TarEntry := [⟨"2024-01/a.log", true, [9]⟩]

/-- Server state with no live storage, both owners' containers on disk,
and an empty tarFS map. -/
def leakSt : ServerSt :=
  { fs := { live := fun _ _ => none,
            archive := fun o m =>
              if o = "alice" ∧ m = "2024-01" then some aliceArch
              else if o = "bob" ∧ m = "2024-01" then some bobArch
              else none },
    cache := fun _ => none }

/-- Empty storage root. -/
def emptyFS : StorageFS :=
  { live := fun _ _ => none, archive := fun _ _ => none }

/-- Empty tarFS map. -/
def emptyCache : String → Option CacheEntry := fun _ => none

/-- Upload faults where the body copy fails after one byte reached the
temp file. -/
def copyFailEnv : UploadEnv := ⟨true, true, false, [5], true⟩

/-- State where both a live file and an archive member exist for the same
(owner, month, filename), with different bytes. -/
def liveHitSt : ServerSt :=
  { fs := { live := fun u m =>
              if u = "o" ∧ m = "2024-01" then some [("f.log", [1])] else none,
            archive := fun o m =>
              if o = "o" ∧ m = "2024-01" then
                some [⟨"2024-01/f.log", true, [9]⟩]
              else none },
    cache := fun _ => none }

/-- State with no live storage, an archive for owner o, and the tarFS map
already populated for the month. -/
def cachedSt : ServerSt :=
  { fs := { live := fun _ _ => none,
            archive := fun o m =>
              if o = "o" ∧ m = "2024-01" then
                some [⟨"2024-01/f.log", true, [9]⟩]
              else none },
    cache := fun d =>
      if d = "2024-01" then some ⟨"o", newTarFS [⟨"2024-01/f.log", true, [9]⟩]⟩
      else none }

/-- State whose tarFS map holds an entry for a month whose container no
longer exists on disk. -/
def staleSt : ServerSt :=
  { fs := { live := fun _ _ => none, archive := fun _ _ => none },
    cache := fun d =>
      if d = "2024-01" then some ⟨"o", newTarFS []⟩ else none }

/-- Server state over an empty storage root. -/
def emptySt : ServerSt := { fs := emptyFS, cache := emptyCache }

/-! Helper lemmas about the tar index. -/

theorem alLookup_insert (m : List (String × Nat)) (k : String) (v : Nat) (s : String) :
    alLookup (alInsert m k v) s = if s = k then some v else alLookup m s := by
  induction m with
  | nil =>
      by_cases h : k = s <;>
        simp [alInsert, alLookup, h, eq_comm]
  | cons p rest ih =>
      obtain ⟨k0, v0⟩ := p
      by_cases h0 : k0 = k <;> by_cases hs : s = k <;>
        simp_all [alInsert, alLookup, eq_comm]

theorem buildIndex_eq (l : List TarEntry) : ∀ (i : Nat) (fs : TarIndex) (s : String),
    (∀ j : Nat, lastIdx l s = some j →
      ∃ e, l.get? j = some e ∧
        alLookup (buildIndex l i fs).indices s = some (i + j) ∧
        alLookup (buildIndex l i fs).sizes s = some e.data.length) ∧
    (lastIdx l s = none →
      alLookup (buildIndex l i fs).indices s = alLookup fs.indices s ∧
      alLookup (buildIndex l i fs).sizes s = alLookup fs.sizes s) := by
  induction l with
  | nil =>
      intro i fs s
      refine ⟨fun j hj => by simp [lastIdx] at hj, fun _ => by simp [buildIndex]⟩
  | cons e rest ih =>
      intro i fs s
      by_cases hreg : e.isReg = true
      · constructor
        · intro j hj
          cases hrest : lastIdx rest s with
          | some j0 =>
              have hj0 : j = j0 + 1 := by
                simp [lastIdx, hrest] at hj; omega
              obtain ⟨e0, hg, hidx, hsz⟩ :=
                (ih (i + 1) ⟨alInsert fs.indices e.name i,
                  alInsert fs.sizes e.name e.data.length⟩ s).1 j0 hrest
              refine ⟨e0, by simpa [hj0] using hg, ?_, ?_⟩
              · simp only [buildIndex, hreg, if_true]
                rw [hidx, hj0]
                congr 1
                omega
              · simp only [buildIndex, hreg, if_true]
                exact hsz
          | none =>
              have hcond : (e.isReg = true ∧ e.name = s) ∧ j = 0 := by
                by_cases hc : e.isReg = true ∧ e.name = s
                · refine ⟨hc, ?_⟩
                  simp [lastIdx, hrest, hc.1, hc.2] at hj
                  omega
                · simp [lastIdx, hrest, hc] at hj
              obtain ⟨hi1, hi2⟩ :=
                (ih (i + 1) ⟨alInsert fs.indices e.name i,
                  alInsert fs.sizes e.name e.data.length⟩ s).2 hrest
              refine ⟨e, by simp [hcond.2], ?_, ?_⟩
              · simp only [buildIndex, hreg, if_true]
                rw [hi1, alLookup_insert, if_pos hcond.1.2.symm, hcond.2]
                simp
              · simp only [buildIndex, hreg, if_true]
                rw [hi2, alLookup_insert, if_pos hcond.1.2.symm]
        · intro hnone
          have hrest : lastIdx rest s = none := by
            cases hr : lastIdx rest s with
            | none => rfl
            | some j0 => simp [lastIdx, hr] at hnone
          have hname : ¬(e.name = s) := by
            intro hn
            simp [lastIdx, hrest, hreg, hn] at hnone
          obtain ⟨hi1, hi2⟩ :=
            (ih (i + 1) ⟨alInsert fs.indices e.name i,
              alInsert fs.sizes e.name e.data.length⟩ s).2 hrest
          constructor
          · simp only [buildIndex, hreg, if_true]
            rw [hi1, alLookup_insert, if_neg (fun hs => hname hs.symm)]
          · simp only [buildIndex, hreg, if_true]
            rw [hi2, alLookup_insert, if_neg (fun hs => hname hs.symm)]
      · have hreg0 : e.isReg = false := by simpa using hreg
        constructor
        · intro j hj
          cases hrest : lastIdx rest s with
          | some j0 =>
              have hj0 : j = j0 + 1 := by
                simp [lastIdx, hrest] at hj; omega
              obtain ⟨e0, hg, hidx, hsz⟩ := (ih (i + 1) fs s).1 j0 hrest
              refine ⟨e0, by simpa [hj0] using hg, ?_, ?_⟩
              · simp only [buildIndex, hreg0]
                simp only [Bool.false_eq_true, if_false]
                rw [hidx, hj0]
                congr 1
                omega
              · simp only [buildIndex, hreg0]
                simp only [Bool.false_eq_true, if_false]
                exact hsz
          | none =>
              simp [lastIdx, hrest, hreg0] at hj
        · intro hnone
          have hrest : lastIdx rest s = none := by
            cases hr : lastIdx rest s with
            | none => rfl
            | some j0 => simp [lastIdx, hr] at hnone
          obtain ⟨hi1, hi2⟩ := (ih (i + 1) fs s).2 hrest
          constructor
          · simp only [buildIndex, hreg0]
            simp only [Bool.false_eq_true, if_false]
            exact hi1
          · simp only [buildIndex, hreg0]
            simp only [Bool.false_eq_true, if_false]
            exact hi2

theorem newTarFS_some (l : List TarEntry) (s : String) (j : Nat)
    (h : lastIdx l s = some j) :
    ∃ e, l.get? j = some e ∧ alLookup (newTarFS l).indices s = some j ∧
      alLookup (newTarFS l).sizes s = some e.data.length := by
  obtain ⟨e, hg, hi, hs⟩ := (buildIndex_eq l 0 ⟨[], []⟩ s).1 j h
  exact ⟨e, hg, by simpa [newTarFS] using hi, by simpa [newTarFS] using hs⟩

theorem newTarFS_none (l : List TarEntry) (s : String)
    (h : lastIdx l s = none) :
    alLookup (newTarFS l).indices s = none := by
  have := ((buildIndex_eq l 0 ⟨[], []⟩ s).2 h).1
  simpa [newTarFS, alLookup] using this

theorem lastIdx_none_spec (l : List TarEntry) (s : String)
    (h : lastIdx l s = none) :
    ∀ k f, l.get? k = some f → ¬(f.isReg = true ∧ f.name = s) := by
  induction l with
  | nil => intro k f hf; simp at hf
  | cons e rest ih =>
      intro k f hf
      have h1 : lastIdx rest s = none := by
        cases hr : lastIdx rest s with
        | none => rfl
        | some j => simp [lastIdx, hr] at h
      have h2 : ¬(e.isReg = true ∧ e.name = s) := by
        intro hc
        simp [lastIdx, h1, hc.1, hc.2] at h
      cases k with
      | zero =>
          have : f = e := by simpa using hf.symm
          subst this
          exact h2
      | succ k2 => exact ih h1 k2 f (by simpa using hf)

theorem lastIdx_some_spec (l : List TarEntry) (s : String) : ∀ j : Nat,
    lastIdx l s = some j →
    ∃ e, l.get? j = some e ∧ e.isReg = true ∧ e.name = s ∧
      ∀ k f, j < k → l.get? k = some f → ¬(f.isReg = true ∧ f.name = s) := by
  induction l with
  | nil => intro j h; simp [lastIdx] at h
  | cons e rest ih =>
      intro j h
      cases hr : lastIdx rest s with
      | some j0 =>
          have hj : j = j0 + 1 := by simp [lastIdx, hr] at h; omega
          obtain ⟨e0, hg, hreg, hname, hlast⟩ := ih j0 hr
          refine ⟨e0, by simpa [hj] using hg, hreg, hname, ?_⟩
          intro k f hk hf
          cases k with
          | zero => omega
          | succ k2 => exact hlast k2 f (by omega) (by simpa using hf)
      | none =>
          have hcond : e.isReg = true ∧ e.name = s := by
            by_cases hc : e.isReg = true ∧ e.name = s
            · exact hc
            · simp [lastIdx, hr, hc] at h
          have hj : j = 0 := by
            simp [lastIdx, hr, hcond.1, hcond.2] at h; omega
          refine ⟨e, by simp [hj], hcond.1, hcond.2, ?_⟩
          intro k f hk hf
          cases k with
          | zero => omega
          | succ k2 => exact lastIdx_none_spec rest s hr k2 f (by simpa using hf)

theorem lastIdx_of_last (l : List TarEntry) (s : String) : ∀ (j : Nat) (e : TarEntry),
    l.get? j = some e → e.isReg = true → e.name = s →
    (∀ k f, j < k → l.get? k = some f → ¬(f.isReg = true ∧ f.name = s)) →
    lastIdx l s = some j := by
  induction l with
  | nil => intro j e hg _ _ _; simp at hg
  | cons a rest ih =>
      intro j e hg hreg hname hlast
      cases j with
      | zero =>
          have ha : a = e := by simpa using hg
          have hnone : lastIdx rest s = none := by
            cases hr : lastIdx rest s with
            | none => rfl
            | some j0 =>
                obtain ⟨f, hgf, hfr, hfn, _⟩ := lastIdx_some_spec rest s j0 hr
                exact absurd ⟨hfr, hfn⟩ (hlast (j0 + 1) f (by omega) (by simpa using hgf))
          subst ha
          simp [lastIdx, hnone, hreg, hname]
      | succ j2 =>
          have hr : lastIdx rest s = some j2 := by
            refine ih j2 e (by simpa using hg) hreg hname ?_
            intro k f hk hf
            exact hlast (k + 1) f (by omega) (by simpa using hf)
          simp [lastIdx, hr]

/-! Helper lemmas about the calendar model. -/

theorem monthLen_bounds (n : Int) : 28 ≤ monthLen n ∧ monthLen n ≤ 31 := by
  unfold monthLen
  split
  · split <;> omega
  · split <;> omega

theorem monthStart_succ (n : Int) : monthStart (n + 1) = monthStart n + monthLen n := by
  cases n with
  | ofNat k =>
      have h1 : (Int.ofNat k) + 1 = Int.ofNat (k + 1) := by
        rw [Int.ofNat_eq_natCast, Int.ofNat_eq_natCast]; omega
      rw [h1]
      show monthStartNat (k + 1) = monthStartNat k + monthLen (Int.ofNat k)
      rfl
  | negSucc k =>
      cases k with
      | zero =>
          have h1 : (Int.negSucc 0) + 1 = Int.ofNat 0 := by decide
          rw [h1]
          show monthStartNat 0 = monthStartNeg 1 + monthLen (Int.negSucc 0)
          have h2 : monthStartNeg 1 = monthStartNeg 0 - monthLen (-(Int.ofNat 0 + 1)) := rfl
          have h3 : -(Int.ofNat 0 + 1) = Int.negSucc 0 := by decide
          rw [h2, h3]
          show (0 : Int) = monthStartNeg 0 - monthLen (Int.negSucc 0) + monthLen (Int.negSucc 0)
          show (0 : Int) = 0 - monthLen (Int.negSucc 0) + monthLen (Int.negSucc 0)
          omega
      | succ k2 =>
          have h1 : (Int.negSucc (k2 + 1)) + 1 = Int.negSucc k2 := by
            rw [Int.negSucc_eq, Int.negSucc_eq]; omega
          rw [h1]
          show monthStartNeg (k2 + 1) = monthStartNeg (k2 + 2) + monthLen (Int.negSucc (k2 + 1))
          have h2 : monthStartNeg (k2 + 2) =
              monthStartNeg (k2 + 1) - monthLen (-(Int.ofNat (k2 + 1) + 1)) := rfl
          have h3 : -(Int.ofNat (k2 + 1) + 1) = Int.negSucc (k2 + 1) := by
            rw [Int.negSucc_eq, Int.ofNat_eq_natCast]
          rw [h2, h3]
          omega

theorem monthStart_lt_of_lt (a b : Int) (hab : a < b) : monthStart a < monthStart b := by
  have key : ∀ n : Int, a + 1 ≤ n → monthStart a < monthStart n :=
    Int.le_induction
      (by
        have h1 := monthStart_succ a
        have h2 := monthLen_bounds a
        omega)
      (by
        intro m hm ihm
        have h1 := monthStart_succ m
        have h2 := monthLen_bounds m
        omega)
  exact key b (by omega)

theorem monthStart_lt_iff (a b : Int) : monthStart a < monthStart b ↔ a < b := by
  constructor
  · intro h
    by_contra hc
    push_neg at hc
    rcases lt_or_eq_of_le hc with h2 | h2
    · exact absurd (monthStart_lt_of_lt b a h2) (by omega)
    · subst h2
      omega
  · exact monthStart_lt_of_lt a b

/-! Helper lemmas about directory entries and live storage. -/

theorem lookupEntry_setEntry_self (d : Dir) (s : String) (b : Bytes) :
    lookupEntry (setEntry d s b) s = some b := by
  induction d with
  | nil => simp [setEntry, lookupEntry]
  | cons p rest ih =>
      obtain ⟨n, c⟩ := p
      by_cases h : n = s <;> simp [setEntry, lookupEntry, h, ih]

theorem lookupEntry_setEntry_ne (d : Dir) (s t : String) (b : Bytes) (hts : t ≠ s) :
    lookupEntry (setEntry d s b) t = lookupEntry d t := by
  induction d with
  | nil => simp [setEntry, lookupEntry, Ne.symm hts]
  | cons p rest ih =>
      obtain ⟨n, c⟩ := p
      by_cases h : n = s
      · subst h
        simp [setEntry, lookupEntry, Ne.symm hts]
      · simp [setEntry, lookupEntry, h, ih]

theorem liveOpen_updLive_self (fs : StorageFS) (u m : String) (d : Dir) (n : String) :
    liveOpen (updLive fs u m d) u m n = lookupEntry d n := by
  simp [liveOpen, updLive]

theorem liveOpen_eq_getD (fs : StorageFS) (u m n : String) :
    liveOpen fs u m n = lookupEntry ((fs.live u m).getD []) n := by
  cases h : fs.live u m <;> simp [liveOpen, h, lookupEntry]

theorem append_tmp_ne (n : String) : n ++ ".tmp" ≠ n := by
  intro h
  have hl := congrArg String.length h
  rw [String.length_append] at hl
  have : (".tmp" : String).length = 4 := by decide
  omega

/-! Claim theorems. -/

/-- C5: for every container holding two or more entries that share the
same member name, the index built by NewTarFS records the last occurrence
(the highest ordinal), and a subsequent TarFS.Get of that name returns
the bytes of that later entry, not an earlier one. -/
theorem C5_last_occurrence_wins (l : List TarEntry) (s : String) (i j : Nat)
    (ei ej : TarEntry) (hij : i < j)
    (hgi : l.get? i = some ei) (hgj : l.get? j = some ej)
    (hri : ei.isReg = true) (hrj : ej.isReg = true)
    (hni : ei.name = s) (hnj : ej.name = s)
    (hlast : ∀ k f, j < k → l.get? k = some f → ¬(f.isReg = true ∧ f.name = s)) :
    alLookup (newTarFS l).indices s = some j ∧
    tarGet (newTarFS l) l s = .ok ej.data := by
  have hl : lastIdx l s = some j := lastIdx_of_last l s j ej hgj hrj hnj hlast
  obtain ⟨e, hg, hidx, _⟩ := newTarFS_some l s j hl
  refine ⟨hidx, ?_⟩
  simp only [tarGet, hidx, hgj]
  rw [if_pos hnj]

/-- C5 witness: a two-entry container repeating the name a; the index
records ordinal 1 and Get returns the second entry's bytes. -/
theorem C5_witness :
    alLookup (newTarFS [⟨"a", true, [1]⟩, ⟨"a", true, [2]⟩]).indices "a" = some 1 ∧
    tarGet (newTarFS [⟨"a", true, [1]⟩, ⟨"a", true, [2]⟩])
      [⟨"a", true, [1]⟩, ⟨"a", true, [2]⟩] "a" = .ok [2] :=
  C5_last_occurrence_wins [⟨"a", true, [1]⟩, ⟨"a", true, [2]⟩] "a" 0 1
    ⟨"a", true, [1]⟩ ⟨"a", true, [2]⟩ (by decide) (by rfl) (by rfl)
    (by rfl) (by rfl) (by rfl) (by rfl)
    (by
      intro k f hk hf
      cases k with
      | zero => omega
      | succ k2 =>
          cases k2 with
          | zero => omega
          | succ k3 => simp at hf)

/-- C6: indexing records, for each regular-file entry, its 0-based
ordinal among all entries (regular or not) together with its declared
size, and fetch replays from the start of the container to exactly that
recorded ordinal: for any container interleaving regular and non-regular
entries, a fetch of an indexed name reaches precisely the indexed entry
and returns its payload when the name there matches; a name mismatch at
the recorded ordinal fails the fetch with an integrity error. -/
theorem C6_ordinal_replay :
    (∀ (l : List TarEntry) (s : String) (j : Nat),
      alLookup (newTarFS l).indices s = some j →
      ∃ e, l.get? j = some e ∧ e.isReg = true ∧ e.name = s ∧
        alLookup (newTarFS l).sizes s = some e.data.length ∧
        tarGet (newTarFS l) l s = .ok e.data) ∧
    (∀ (fs : TarIndex) (l : List TarEntry) (s : String) (j : Nat) (e : TarEntry),
      alLookup fs.indices s = some j → l.get? j = some e → e.name ≠ s →
      tarGet fs l s = .error "expected file name mismatch") := by
  constructor
  · intro l s j hlook
    cases hl : lastIdx l s with
    | none =>
        rw [newTarFS_none l s hl] at hlook
        exact absurd hlook (by simp)
    | some j0 =>
        obtain ⟨e, hg, hidx, hsz⟩ := newTarFS_some l s j0 hl
        have hj : j0 = j := by
          rw [hidx] at hlook
          exact Option.some.inj hlook
        subst hj
        obtain ⟨e2, hg2, hreg, hname, _⟩ := lastIdx_some_spec l s j0 hl
        have he : e = e2 := by
          rw [hg] at hg2
          exact Option.some.inj hg2
        subst he
        refine ⟨e, hg, hreg, hname, hsz, ?_⟩
        simp only [tarGet, hidx, hg]
        rw [if_pos hname]
  · intro fs l s j e hlook hg hne
    simp only [tarGet, hlook, hg]
    rw [if_neg hne]

/-- C6 witness: a container with a non-regular entry before a regular
one, fetched through its own index; and a stale index naming ordinal 0
of a container whose entry 0 has a different name, failing the fetch. -/
theorem C6_witness :
    (∃ e, ([⟨"d", false, [3]⟩, ⟨"x", true, [7]⟩] : List TarEntry).get? 1 = some e ∧
      e.isReg = true ∧ e.name = "x" ∧
      alLookup (newTarFS [⟨"d", false, [3]⟩, ⟨"x", true, [7]⟩]).sizes "x"
        = some e.data.length ∧
      tarGet (newTarFS [⟨"d", false, [3]⟩, ⟨"x", true, [7]⟩])
        [⟨"d", false, [3]⟩, ⟨"x", true, [7]⟩] "x" = .ok e.data) ∧
    tarGet ⟨[("x", 0)], []⟩ [⟨"y", true, [1]⟩] "x"
      = .error "expected file name mismatch" :=
  ⟨C6_ordinal_replay.1 [⟨"d", false, [3]⟩, ⟨"x", true, [7]⟩] "x" 1 (by decide),
   C6_ordinal_replay.2 ⟨[("x", 0)], []⟩ [⟨"y", true, [1]⟩] "x" 0 ⟨"y", true, [1]⟩
     (by decide) (by rfl) (by decide)⟩

/-- C1: the tarFS cache is keyed by the month alone, not by the pair
(owner, month): a fresh GetFile by bob for month 2024-01 serves bob's own
container, but once alice's GetFile for the same month has populated the
cache, bob's GetFile is served from alice's cached archive and returns
alice's bytes. -/
theorem C1_cache_shared_across_owners :
    (getFile leakSt "bob" "2024-01" "a.log").1 = .ok [9] ∧
    (getFile leakSt "alice" "2024-01" "a.log").1 = .ok [1, 2, 3] ∧
    (getFile (getFile leakSt "alice" "2024-01" "a.log").2 "bob" "2024-01" "a.log").1
      = .ok [1, 2, 3] := by
  decide

/-- C2: CompressAll aborts the whole sweep at the first rotation failure:
with alice's month 2000-01 failing and bob's month 2000-02
rotation-eligible (a directory, parseable as YYYY-MM, older than the
threshold), the sweep returns the error having attempted only alice's
month, and bob's month is never attempted. -/
theorem C2_sweep_aborts_at_first_failure :
    compressAll "st"
        [⟨"alice", true, [("2000-01", true)]⟩, ⟨"bob", true, [("2000-02", true)]⟩]
        "2025-09" "zst" (fun u _ => u == "alice")
      = ([("alice", "2000-01")], .error ()) ∧
    isYYYYMM "2000-02" = true ∧ strLt "2000-02" "2025-09" = true ∧
    ("bob", "2000-02") ∉ (compressAll "st"
        [⟨"alice", true, [("2000-01", true)]⟩, ⟨"bob", true, [("2000-02", true)]⟩]
        "2025-09" "zst" (fun u _ => u == "alice")).1 := by
  decide

/-- C3: a failing Close of the tar writer after a successful walk is
discarded by the deferred calls in CompressDir, so CompressAndRemove
still returns nil and deletes the source directory even though the
container was never fully finalized. -/
theorem C3_close_failure_still_deletes_source :
    compressAndRemove ⟨none, some [("2024-01/a.log", [7])]⟩ "zst"
        ⟨true, none, false, true, true⟩
      = (⟨some ⟨[("2024-01/a.log", [7])], false⟩, none⟩, .ok) := by
  decide

theorem compressDir_existing (fs : RotFS) (format : String) (fl : RotFaults) (t : TarFile)
    (h : fs.tar = some t) : compressDir fs format fl = (fs, .ok) := by
  simp [compressDir, h]

theorem compressDir_ok_tar (fs : RotFS) (format : String) (fl : RotFaults)
    (h : (compressDir fs format fl).2 = .ok) :
    ∃ t, (compressDir fs format fl).1.tar = some t := by
  by_cases h1 : fs.tar.isSome = true
  · obtain ⟨t, ht⟩ := Option.isSome_iff_exists.mp h1
    exact ⟨t, by simp [compressDir, ht]⟩
  · by_cases h2 : fl.createOk = false
    · simp [compressDir, h1, h2] at h
    · by_cases h3 : format = "bz2"
      · simp [compressDir, h1, h2, h3] at h
      · by_cases h4 : format = "gz" ∨ format = "zst" ∨ format = "xz"
        · cases hsrc : fs.src with
          | none => simp [compressDir, h1, h2, h3, h4, hsrc] at h
          | some files =>
              cases hfa : fl.failAfter with
              | some k =>
                  by_cases h5 : k < files.length
                  · simp [compressDir, h1, h2, h3, h4, hsrc, hfa, h5] at h
                  · refine ⟨⟨files, fl.twCloseOk && fl.compCloseOk && fl.fCloseOk⟩, ?_⟩
                    simp [compressDir, h1, h2, h3, h4, hsrc, hfa, h5]
              | none =>
                  refine ⟨⟨files, fl.twCloseOk && fl.compCloseOk && fl.fCloseOk⟩, ?_⟩
                  simp [compressDir, h1, h2, h3, h4, hsrc, hfa]
        · simp [compressDir, h1, h2, h3, h4] at h

theorem compressAndRemove_ok_state (fs : RotFS) (format : String) (fl : RotFaults)
    (h : (compressAndRemove fs format fl).2 = .ok) :
    (compressAndRemove fs format fl).1.src = none ∧
    ∃ t, (compressAndRemove fs format fl).1.tar = some t := by
  rcases hcd : compressDir fs format fl with ⟨fs1, out⟩
  cases out with
  | ok =>
      obtain ⟨t, ht⟩ := compressDir_ok_tar fs format fl (by rw [hcd])
      rw [hcd] at ht
      have ht2 : fs1.tar = some t := ht
      refine ⟨?_, ⟨t, ?_⟩⟩ <;> simp [compressAndRemove, hcd, ht2]
  | err => simp [compressAndRemove, hcd] at h
  | panicked => simp [compressAndRemove, hcd] at h
  | nilDeref => simp [compressAndRemove, hcd] at h

theorem compressAndRemove_existing (fs : RotFS) (format : String) (fl : RotFaults)
    (t : TarFile) (h : fs.tar = some t) :
    compressAndRemove fs format fl = ({ fs with src := none }, .ok) := by
  have hcd := compressDir_existing fs format fl t h
  simp [compressAndRemove, hcd]

/-- C9: rotation is idempotent with respect to an existing container:
when the container already exists, CompressAndRemove returns a no-op and
the container is never overwritten, and after any successful rotation a
second CompressAndRemove changes nothing and succeeds, so calling rotate
twice writes the container exactly once and the container is immutable
once created. -/
theorem C9_rotation_idempotent :
    (∀ (fs : RotFS) (format : String) (fl : RotFaults) (t : TarFile),
      fs.tar = some t →
      (compressAndRemove fs format fl).1.tar = some t ∧
      (compressAndRemove fs format fl).2 = .ok) ∧
    (∀ (fs : RotFS) (format : String) (fl fl2 : RotFaults),
      (compressAndRemove fs format fl).2 = .ok →
      compressAndRemove (compressAndRemove fs format fl).1 format fl2
        = ((compressAndRemove fs format fl).1, .ok)) := by
  constructor
  · intro fs format fl t h
    have hcd := compressDir_existing fs format fl t h
    constructor <;> simp [compressAndRemove, hcd, h]
  · intro fs format fl fl2 hok
    obtain ⟨hsrc, t, htar⟩ := compressAndRemove_ok_state fs format fl hok
    have heq : ({ (compressAndRemove fs format fl).1 with src := none } : RotFS)
        = (compressAndRemove fs format fl).1 := by
      rw [← hsrc]
    rw [compressAndRemove_existing (compressAndRemove fs format fl).1 format fl2 t htar, heq]

/-- C9 witness: a state whose container exists is returned unchanged with
a nil error, and a successful rotation followed by a second call is a
no-op. -/
theorem C9_witness :
    ((compressAndRemove ⟨some ⟨[("m/f", [1])], true⟩, none⟩ "zst"
        ⟨true, none, true, true, true⟩).1.tar = some ⟨[("m/f", [1])], true⟩ ∧
     (compressAndRemove ⟨some ⟨[("m/f", [1])], true⟩, none⟩ "zst"
        ⟨true, none, true, true, true⟩).2 = .ok) ∧
    compressAndRemove
        (compressAndRemove ⟨none, some [("m/f", [1])]⟩ "zst"
          ⟨true, none, true, true, true⟩).1 "zst" ⟨true, none, true, true, true⟩
      = ((compressAndRemove ⟨none, some [("m/f", [1])]⟩ "zst"
          ⟨true, none, true, true, true⟩).1, .ok) :=
  ⟨C9_rotation_idempotent.1 ⟨some ⟨[("m/f", [1])], true⟩, none⟩ "zst"
      ⟨true, none, true, true, true⟩ ⟨[("m/f", [1])], true⟩ (by rfl),
   C9_rotation_idempotent.2 ⟨none, some [("m/f", [1])]⟩ "zst"
      ⟨true, none, true, true, true⟩ ⟨true, none, true, true, true⟩ (by decide)⟩

/-- C10: CompressDir's writer construction is total only for the formats
the server constructor accepts: reached with no pre-existing container and
a successful create, format bz2 panics instead of returning an error and
any format outside gz/bz2/zst/xz dereferences a nil tar writer; the
constructor New accepts exactly zst, gz and xz, and for those formats
CompressDir either returns normally or returns an error value. -/
theorem C10_writer_totality :
    (∀ (fs : RotFS) (fl : RotFaults), fs.tar = none → fl.createOk = true →
      (compressDir fs "bz2" fl).2 = .panicked) ∧
    (∀ (fs : RotFS) (fl : RotFaults) (format : String), fs.tar = none → fl.createOk = true →
      format ≠ "gz" → format ≠ "bz2" → format ≠ "zst" → format ≠ "xz" →
      (compressDir fs format fl).2 = .nilDeref) ∧
    (∀ format : String, serverAcceptsFormat format = true →
      format = "zst" ∨ format = "gz" ∨ format = "xz") ∧
    (∀ (fs : RotFS) (fl : RotFaults) (format : String), serverAcceptsFormat format = true →
      (compressDir fs format fl).2 = .ok ∨ (compressDir fs format fl).2 = .err) := by
  have hacc : ∀ format : String, serverAcceptsFormat format = true →
      format = "zst" ∨ format = "gz" ∨ format = "xz" := by
    intro format h
    by_contra hc
    push_neg at hc
    simp [serverAcceptsFormat, hc.1, hc.2.1, hc.2.2] at h
  refine ⟨?_, ?_, hacc, ?_⟩
  · intro fs fl h1 h2
    simp [compressDir, h1, h2]
  · intro fs fl format h1 h2 hgz hbz hzst hxz
    simp [compressDir, h1, h2, hgz, hbz, hzst, hxz]
  · intro fs fl format hf
    rcases hacc format hf with h | h | h <;> subst h <;>
      (by_cases h1 : fs.tar.isSome = true
       · left; simp [compressDir, h1]
       · by_cases h2 : fl.createOk = false
         · right; simp [compressDir, h1, h2]
         · cases hsrc : fs.src with
           | none => right; simp [compressDir, h1, h2, hsrc]
           | some files =>
               cases hfa : fl.failAfter with
               | some k =>
                   by_cases h5 : k < files.length
                   · right; simp [compressDir, h1, h2, hsrc, hfa, h5]
                   · left; simp [compressDir, h1, h2, hsrc, hfa, h5]
               | none => left; simp [compressDir, h1, h2, hsrc, hfa])

/-- C10 witness: bz2 panics, br dereferences a nil writer, zst is
accepted by New, and a zst rotation returns normally or with an error. -/
theorem C10_witness :
    (compressDir ⟨none, none⟩ "bz2" ⟨true, none, true, true, true⟩).2 = .panicked ∧
    (compressDir ⟨none, none⟩ "br" ⟨true, none, true, true, true⟩).2 = .nilDeref ∧
    ("zst" = "zst" ∨ "zst" = "gz" ∨ "zst" = "xz") ∧
    ((compressDir ⟨none, none⟩ "zst" ⟨true, none, true, true, true⟩).2 = .ok ∨
     (compressDir ⟨none, none⟩ "zst" ⟨true, none, true, true, true⟩).2 = .err) :=
  ⟨C10_writer_totality.1 ⟨none, none⟩ ⟨true, none, true, true, true⟩ (by rfl) (by rfl),
   C10_writer_totality.2.1 ⟨none, none⟩ ⟨true, none, true, true, true⟩ "br" (by rfl) (by rfl)
     (by decide) (by decide) (by decide) (by decide),
   C10_writer_totality.2.2.1 "zst" (by decide),
   C10_writer_totality.2.2.2 ⟨none, none⟩ ⟨true, none, true, true, true⟩ "zst" (by decide)⟩

/-- C8: GetFile tries live storage first and live storage is
authoritative: when the live file exists its bytes are served with no
archive consultation, even when an archive member for the same key also
exists; when live access fails the handler falls back to the archive
member date/name through the tarFS map — on a first access (cache miss)
with the container present it builds the index from that container,
stores it in the map under the date, and serves the member date/name
(or not-found when the member is absent); on a cache hit it serves the
member from the cached index; when neither the cache, the container nor
the member yields data the handler reports not-found. -/
theorem C8_live_first_overlay :
    (∀ (s : ServerSt) (user date name : String) (dir : Dir) (b : Bytes),
      s.fs.live user date = some dir → lookupEntry dir name = some b →
      getFile s user date name = (.ok b, s)) ∧
    (∀ (s : ServerSt) (user date name : String) (entries : List TarEntry),
      liveOpen s.fs user date name = none → s.cache date = none →
      s.fs.archive user date = some entries →
      (getFile s user date name).1 =
        (match tarGet (newTarFS entries) entries (date ++ "/" ++ name) with
         | Except.ok b => GetResult.ok b
         | Except.error _ => GetResult.notFound) ∧
      (getFile s user date name).2.cache date = some ⟨user, newTarFS entries⟩ ∧
      (getFile s user date name).2.fs = s.fs) ∧
    (∀ (s : ServerSt) (user date name : String) (ce : CacheEntry) (entries : List TarEntry),
      liveOpen s.fs user date name = none → s.cache date = some ce →
      s.fs.archive ce.owner date = some entries →
      (getFile s user date name).1 =
        (match tarGet ce.idx entries (date ++ "/" ++ name) with
         | Except.ok b => GetResult.ok b
         | Except.error _ => GetResult.notFound) ∧
      (getFile s user date name).2 = s) ∧
    (∀ (s : ServerSt) (user date name : String),
      liveOpen s.fs user date name = none → s.cache date = none →
      s.fs.archive user date = none →
      getFile s user date name = (.notFound, s)) ∧
    (∀ (s : ServerSt) (user date name : String) (ce : CacheEntry),
      liveOpen s.fs user date name = none → s.cache date = some ce →
      s.fs.archive ce.owner date = none →
      (getFile s user date name).1 = .notFound) := by
  refine ⟨?_, ?_, ?_, ?_, ?_⟩
  · intro s user date name dir b h1 h2
    have hlo : liveOpen s.fs user date name = some b := by
      simp [liveOpen, h1, h2]
    simp [getFile, hlo]
  · intro s user date name entries hlo hc harch
    refine ⟨?_, ?_, ?_⟩ <;>
      simp [getFile, hlo, getFileArchive, hc, tarFetch, harch]
  · intro s user date name ce entries hlo hc harch
    constructor <;> simp [getFile, hlo, getFileArchive, hc, tarFetch, harch]
  · intro s user date name hlo hc harch
    simp [getFile, hlo, getFileArchive, hc, harch]
  · intro s user date name ce hlo hc harch
    simp [getFile, hlo, getFileArchive, hc, tarFetch, harch]

/-- C8 witness: live bytes win over a conflicting archive member; a
first access with an empty cache builds the index from bob's own
container, populates the map and serves the member (and reports
not-found for an absent member); a populated cache serves the member
date/name; an empty root is not-found; and a cached month whose
container vanished is not-found. -/
theorem C8_witness :
    getFile liveHitSt "o" "2024-01" "f.log" = (.ok [1], liveHitSt) ∧
    ((getFile leakSt "bob" "2024-01" "a.log").1 =
      (match tarGet (newTarFS bobArch) bobArch ("2024-01" ++ "/" ++ "a.log") with
       | Except.ok b => GetResult.ok b
       | Except.error _ => GetResult.notFound) ∧
     (getFile leakSt "bob" "2024-01" "a.log").2.cache "2024-01"
        = some ⟨"bob", newTarFS bobArch⟩ ∧
     (getFile leakSt "bob" "2024-01" "a.log").2.fs = leakSt.fs) ∧
    ((getFile leakSt "bob" "2024-01" "nope.log").1 =
      (match tarGet (newTarFS bobArch) bobArch ("2024-01" ++ "/" ++ "nope.log") with
       | Except.ok b => GetResult.ok b
       | Except.error _ => GetResult.notFound) ∧
     (getFile leakSt "bob" "2024-01" "nope.log").2.cache "2024-01"
        = some ⟨"bob", newTarFS bobArch⟩ ∧
     (getFile leakSt "bob" "2024-01" "nope.log").2.fs = leakSt.fs) ∧
    ((getFile cachedSt "o" "2024-01" "f.log").1 =
      (match tarGet (newTarFS [⟨"2024-01/f.log", true, [9]⟩])
          [⟨"2024-01/f.log", true, [9]⟩] ("2024-01" ++ "/" ++ "f.log") with
       | Except.ok b => GetResult.ok b
       | Except.error _ => GetResult.notFound) ∧
     (getFile cachedSt "o" "2024-01" "f.log").2 = cachedSt) ∧
    getFile emptySt "o" "2024-01" "f.log" = (.notFound, emptySt) ∧
    (getFile staleSt "o" "2024-01" "f.log").1 = .notFound :=
  ⟨C8_live_first_overlay.1 liveHitSt "o" "2024-01" "f.log" [("f.log", [1])] [1]
      (by decide) (by decide),
   C8_live_first_overlay.2.1 leakSt "bob" "2024-01" "a.log" bobArch
      (by decide) (by decide) (by decide),
   C8_live_first_overlay.2.1 leakSt "bob" "2024-01" "nope.log" bobArch
      (by decide) (by decide) (by decide),
   C8_live_first_overlay.2.2.1 cachedSt "o" "2024-01" "f.log"
      ⟨"o", newTarFS [⟨"2024-01/f.log", true, [9]⟩]⟩ [⟨"2024-01/f.log", true, [9]⟩]
      (by decide) (by decide) (by decide),
   C8_live_first_overlay.2.2.2.1 emptySt "o" "2024-01" "f.log"
      (by decide) (by decide) (by decide),
   C8_live_first_overlay.2.2.2.2 staleSt "o" "2024-01" "f.log" ⟨"o", newTarFS []⟩
      (by decide) (by decide) (by decide)⟩

/-- C4 counterexample: an upload whose body copy fails after one byte
leaves the partially written temp file a.log.tmp in the month directory,
where it is visible through ListFiles and its partial bytes are served by
GetFile under the temporary name — partially written data of the failed
upload is visible through the list-files and get-file operations,
contradicting the claim as stated. -/
theorem C4_counterexample :
    (uploadWrite emptyFS "alice" "2024-01" "a.log" [5, 6] copyFailEnv).1 = .writeFailed ∧
    (listFiles ⟨(uploadWrite emptyFS "alice" "2024-01" "a.log" [5, 6] copyFailEnv).2,
        emptyCache⟩ "alice" "2024-01").1 = .ok ["a.log.tmp"] ∧
    (getFile ⟨(uploadWrite emptyFS "alice" "2024-01" "a.log" [5, 6] copyFailEnv).2,
        emptyCache⟩ "alice" "2024-01" "a.log.tmp").1 = .ok [5] := by
  decide

/-- C4 (amended): an accepted upload is written atomically through the
temp file name.tmp and a rename to exactly storage/owner/month/filename
with the parent directory created as needed: unless the handler reports
created, the live file under the target filename is unchanged, so no
partial data is visible under the uploaded filename; on success the
payload is visible there; after a mid-copy failure the partial bytes sit
in the leftover temp file name.tmp; and no other (owner, month) directory
is touched. -/
theorem C4_amended_upload (fs : StorageFS) (user date name : String) (payload : Bytes)
    (env : UploadEnv) :
    ((uploadWrite fs user date name payload env).1 ≠ .created →
      liveOpen (uploadWrite fs user date name payload env).2 user date name
        = liveOpen fs user date name) ∧
    ((uploadWrite fs user date name payload env).1 = .created →
      liveOpen (uploadWrite fs user date name payload env).2 user date name
        = some payload) ∧
    (env.mkdirOk = true → env.createOk = true → env.copyOk = false →
      liveOpen (uploadWrite fs user date name payload env).2 user date (name ++ ".tmp")
        = some env.written) ∧
    (∀ u m, ¬(u = user ∧ m = date) →
      (uploadWrite fs user date name payload env).2.live u m = fs.live u m) := by
  have hne : name ≠ name ++ ".tmp" := Ne.symm (append_tmp_ne name)
  by_cases h1 : env.mkdirOk = false
  · have hu2 : (uploadWrite fs user date name payload env).2 = fs := by
      simp [uploadWrite, h1]
    refine ⟨?_, ?_, ?_, ?_⟩
    · intro _; rw [hu2]
    · intro hcr; simp [uploadWrite, h1] at hcr
    · intro hm; rw [hm] at h1; exact absurd h1 (by simp)
    · intro u m _; rw [hu2]
  · by_cases h2 : env.createOk = false
    · have hu2 : (uploadWrite fs user date name payload env).2
          = updLive fs user date ((fs.live user date).getD []) := by
        simp [uploadWrite, h1, h2]
      refine ⟨?_, ?_, ?_, ?_⟩
      · intro _
        rw [hu2, liveOpen_updLive_self, ← liveOpen_eq_getD]
      · intro hcr
        simp [uploadWrite, h1, h2] at hcr
      · intro _ hc; rw [hc] at h2; exact absurd h2 (by simp)
      · intro u m hum
        rw [hu2]
        simp [updLive, hum]
    · by_cases h3 : env.copyOk = false
      · have hu2 : (uploadWrite fs user date name payload env).2
            = updLive fs user date
                (setEntry ((fs.live user date).getD []) (name ++ ".tmp") env.written) := by
          simp [uploadWrite, h1, h2, h3]
        refine ⟨?_, ?_, ?_, ?_⟩
        · intro _
          rw [hu2, liveOpen_updLive_self, lookupEntry_setEntry_ne _ _ _ _ hne,
            ← liveOpen_eq_getD]
        · intro hcr
          simp [uploadWrite, h1, h2, h3] at hcr
        · intro _ _ _
          rw [hu2, liveOpen_updLive_self, lookupEntry_setEntry_self]
        · intro u m hum
          rw [hu2]
          simp [updLive, hum]
      · by_cases h4 : env.renameOk = false
        · have hu2 : (uploadWrite fs user date name payload env).2
              = updLive fs user date
                  (setEntry ((fs.live user date).getD []) (name ++ ".tmp") payload) := by
            simp [uploadWrite, h1, h2, h3, h4]
          refine ⟨?_, ?_, ?_, ?_⟩
          · intro _
            rw [hu2, liveOpen_updLive_self, lookupEntry_setEntry_ne _ _ _ _ hne,
              ← liveOpen_eq_getD]
          · intro hcr
            simp [uploadWrite, h1, h2, h3, h4] at hcr
          · intro _ _ hc; rw [hc] at h3; exact absurd h3 (by simp)
          · intro u m hum
            rw [hu2]
            simp [updLive, hum]
        · have hu2 : (uploadWrite fs user date name payload env).2
              = updLive fs user date
                  (setEntry
                    (removeEntry
                      (setEntry ((fs.live user date).getD []) (name ++ ".tmp") payload)
                      (name ++ ".tmp"))
                    name payload) := by
            simp [uploadWrite, h1, h2, h3, h4]
          refine ⟨?_, ?_, ?_, ?_⟩
          · intro hcr
            exact absurd (by simp [uploadWrite, h1, h2, h3, h4]) hcr
          · intro _
            rw [hu2, liveOpen_updLive_self, lookupEntry_setEntry_self]
          · intro _ _ hc; rw [hc] at h3; exact absurd h3 (by simp)
          · intro u m hum
            rw [hu2]
            simp [updLive, hum]

/-- C4 witness: a successful upload into an empty root lands the payload
at the target path; a mid-copy failure leaves the target unchanged and
the partial bytes in the temp file; other directories are untouched. -/
theorem C4_witness :
    ((uploadWrite emptyFS "alice" "2024-01" "a.log" [5, 6]
        ⟨true, true, true, [], true⟩).1 = .created →
      liveOpen (uploadWrite emptyFS "alice" "2024-01" "a.log" [5, 6]
        ⟨true, true, true, [], true⟩).2 "alice" "2024-01" "a.log" = some [5, 6]) ∧
    ((uploadWrite emptyFS "alice" "2024-01" "a.log" [5, 6] copyFailEnv).1 ≠ .created →
      liveOpen (uploadWrite emptyFS "alice" "2024-01" "a.log" [5, 6] copyFailEnv).2
        "alice" "2024-01" "a.log"
        = liveOpen emptyFS "alice" "2024-01" "a.log") ∧
    liveOpen (uploadWrite emptyFS "alice" "2024-01" "a.log" [5, 6] copyFailEnv).2
      "alice" "2024-01" ("a.log" ++ ".tmp") = some [5] ∧
    (uploadWrite emptyFS "alice" "2024-01" "a.log" [5, 6] copyFailEnv).2.live
      "bob" "2024-01" = emptyFS.live "bob" "2024-01" :=
  ⟨(C4_amended_upload emptyFS "alice" "2024-01" "a.log" [5, 6]
      ⟨true, true, true, [], true⟩).2.1,
   (C4_amended_upload emptyFS "alice" "2024-01" "a.log" [5, 6] copyFailEnv).1,
   (C4_amended_upload emptyFS "alice" "2024-01" "a.log" [5, 6] copyFailEnv).2.2.1
      (by rfl) (by rfl) (by rfl),
   (C4_amended_upload emptyFS "alice" "2024-01" "a.log" [5, 6] copyFailEnv).2.2.2
      "bob" "2024-01" (by decide)⟩

/-- C7: for every upload instant (month index m, 0-based day d, second
sec of the day, all UTC) and month token, the upload is rejected exactly
when the token month starts before the first of the previous calendar
month or after tomorrow: a month two calendar months in the past and a
month two in the future are rejected, while the previous calendar month
and the month containing tomorrow (the current month, or the next one
when tomorrow crosses the UTC month boundary) are accepted. -/
theorem C7_date_window (m d sec : Int) (hd0 : 0 ≤ d) (hd1 : d < monthLen m)
    (hs0 : 0 ≤ sec) (hs1 : sec < 86400) :
    dateOutOfRange (m - 2) m d sec = true ∧
    dateOutOfRange (m + 2) m d sec = true ∧
    dateOutOfRange (m - 1) m d sec = false ∧
    dateOutOfRange (if d + 1 < monthLen m then m else m + 1) m d sec = false ∧
    (∀ tok : Int, dateOutOfRange tok m d sec = true ↔
      (tok < m - 1 ∨ monthStartSec tok > instant m d sec + 86400)) := by
  have e1 : monthStart m = monthStart (m - 1) + monthLen (m - 1) := by
    have h := monthStart_succ (m - 1)
    rw [show m - 1 + 1 = m by ring] at h
    exact h
  have e2 : monthStart (m + 1) = monthStart m + monthLen m := monthStart_succ m
  have e3 : monthStart (m + 2) = monthStart (m + 1) + monthLen (m + 1) := by
    have h := monthStart_succ (m + 1)
    rw [show m + 1 + 1 = m + 2 by ring] at h
    exact h
  have e4 : monthStart (m - 1) = monthStart (m - 2) + monthLen (m - 2) := by
    have h := monthStart_succ (m - 2)
    rw [show m - 2 + 1 = m - 1 by ring] at h
    exact h
  have b0 := monthLen_bounds (m - 2)
  have b1 := monthLen_bounds (m - 1)
  have b2 := monthLen_bounds m
  have b3 := monthLen_bounds (m + 1)
  refine ⟨?_, ?_, ?_, ?_, ?_⟩
  · simp only [dateOutOfRange, monthStartSec, instant, Bool.or_eq_true, decide_eq_true_eq]
    left
    omega
  · simp only [dateOutOfRange, monthStartSec, instant, Bool.or_eq_true, decide_eq_true_eq]
    right
    omega
  · simp only [dateOutOfRange, monthStartSec, instant, Bool.or_eq_false_iff,
      decide_eq_false_iff_not, not_lt, gt_iff_lt]
    constructor
    · omega
    · omega
  · by_cases hb : d + 1 < monthLen m
    · rw [if_pos hb]
      simp only [dateOutOfRange, monthStartSec, instant, Bool.or_eq_false_iff,
        decide_eq_false_iff_not, not_lt, gt_iff_lt]
      constructor
      · omega
      · omega
    · rw [if_neg hb]
      simp only [dateOutOfRange, monthStartSec, instant, Bool.or_eq_false_iff,
        decide_eq_false_iff_not, not_lt, gt_iff_lt]
      constructor
      · omega
      · omega
  · intro tok
    have hlt := monthStart_lt_iff tok (m - 1)
    simp only [dateOutOfRange, monthStartSec, instant, Bool.or_eq_true, decide_eq_true_eq]
    constructor
    · rintro (h | h)
      · left
        exact hlt.mp (by omega)
      · right
        omega
    · rintro (h | h)
      · left
        have := hlt.mpr h
        omega
      · right
        omega

/-- C7 witness: at 2025-08-15 01:00:00 UTC the months 2025-06 and 2025-10
are rejected while 2025-07 and the month containing tomorrow are
accepted. -/
theorem C7_witness :
    dateOutOfRange (24307 - 2) 24307 14 3600 = true ∧
    dateOutOfRange (24307 + 2) 24307 14 3600 = true ∧
    dateOutOfRange (24307 - 1) 24307 14 3600 = false ∧
    dateOutOfRange (if (14 : Int) + 1 < monthLen 24307 then 24307 else 24307 + 1)
      24307 14 3600 = false ∧
    (∀ tok : Int, dateOutOfRange tok 24307 14 3600 = true ↔
      (tok < 24307 - 1 ∨ monthStartSec tok > instant 24307 14 3600 + 86400)) :=
  C7_date_window 24307 14 3600 (by decide) (by decide) (by decide) (by decide)

end Logapi
